import Mathlib

/-!
Verification of the NutriMeal Navigator recipe dashboard (`app.py`).

The development embeds the data model (recipe table, filter criteria), the
predicate filter engine `filter_recipes`, and the aggregation layer
(`plot_rating_distribution`' s binning and `plot_nutrition_comparison`' s
column means) as executable Lean definitions, and proves the spec's
testable properties about them.

Numeric cell values (ratings, calories, protein, fat) are embedded as
rationals; the table is an ordered list of rows plus the frame's column
names, and the pandas `KeyError` raised by indexing a missing dietary-flag
column is embedded as an `Except.error` result.
-/

namespace NutriMeal

/-- One recipe row.  Base columns are explicit fields; the boolean-like
dietary-flag columns (`Vegetarian`, `Vegan`, `Gluten-Free`, `Peanut-Free`, …)
are a name-keyed association list, mirroring the frame's string-keyed
column access `df[name]`.  A missing/NaN `meal_type` cell is `none`. -/
structure Row where
  title : String
  rating : ℚ
  meal_type : Option String
  calories : ℚ
  protein : ℚ
  fat : ℚ
  flags : List (String × Bool)
deriving DecidableEq, Repr

/-- The recipe table: the frame's column names (as consulted by the
`df[dietary_restrictions]` membership check) together with the ordered
sequence of rows. -/
structure Table where
  columns : List String
  rows : List Row
deriving DecidableEq, Repr

/-- The filter criteria assembled by the sidebar, in the order of the
`filter_recipes` parameters: selected restriction names, the selected
meal-type string (the selectbox always yields a string; `""` stands for a
falsy/absent value), and the two slider ranges (`none` models passing a
falsy `None` instead of a tuple). -/
structure Criteria where
  dietary_restrictions : List String
  meal_type : String
  rating_range : Option (ℚ × ℚ)
  calories_range : Option (ℚ × ℚ)
deriving DecidableEq, Repr

/-- The failure `filter_recipes` can produce: pandas raises a `KeyError`
naming the requested dietary-restriction columns absent from the frame. -/
inductive FilterErr where
  | unknownRestriction (names : List String)
deriving DecidableEq, Repr

/-- Value of a dietary-flag column in a row (`df[name]` truthiness). -/
def getFlag (r : Row) (name : String) : Bool :=
  (List.lookup name r.flags).getD false

/-- The characters of a string, case-folded (`case=False`). -/
def lowerChars (s : String) : List Char :=
  s.data.map Char.toLower

/-- Substring containment on character lists: `needle` occurs contiguously
in the argument. -/
def hasSub (needle : List Char) : List Char → Bool
  | [] => needle.isEmpty
  | c :: rest => needle.isPrefixOf (c :: rest) || hasSub needle rest

/-- Case-insensitive containment of `pat` in `s`.  The source calls
`Series.str.contains(pat, case=False)`; the UI's meal-type strings contain
no regex metacharacters, so the pattern matches as a literal substring. -/
def containsCI (pat s : String) : Bool :=
  hasSub (lowerChars pat) (lowerChars s)

/-- The meal-type row test of line 37:
`filtered_df['meal_type'].str.contains(meal_type, case=False, na=False)` —
a NaN cell yields `False` (`na=False`). -/
def mealPred (mt : String) (r : Row) : Bool :=
  match r.meal_type with
  | none => false
  | some s => containsCI mt s

/-- The dietary row test of line 34: `df[dietary_restrictions].all(axis=1)` —
every selected flag column must be truthy. -/
def dietaryAll (c : Criteria) (r : Row) : Bool :=
  c.dietary_restrictions.all (fun n => getFlag r n)

/-- The meal-type stage including its guard (line 36):
`if meal_type and meal_type != 'Any'` — skipped (always passes) for a
falsy/empty meal type or the sentinel `"Any"`. -/
def mealStage (c : Criteria) (r : Row) : Bool :=
  if c.meal_type = "" ∨ c.meal_type = "Any" then true
  else mealPred c.meal_type r

/-- The calorie-range stage (lines 39-43): skipped for a falsy range,
otherwise the closed interval test `lo <= calories <= hi`. -/
def calStage (c : Criteria) (r : Row) : Bool :=
  match c.calories_range with
  | none => true
  | some (lo, hi) => decide (lo ≤ r.calories) && decide (r.calories ≤ hi)

/-- The rating-range stage (lines 45-49): skipped for a falsy range,
otherwise the closed interval test `lo <= rating <= hi`. -/
def ratStage (c : Criteria) (r : Row) : Bool :=
  match c.rating_range with
  | none => true
  | some (lo, hi) => decide (lo ≤ r.rating) && decide (r.rating ≤ hi)

/-- The requested restriction names with no matching column — the names a
pandas `KeyError` from `df[dietary_restrictions]` reports as not in the
index. -/
def missingCols (t : Table) (c : Criteria) : List String :=
  c.dietary_restrictions.filter (fun n => !(t.columns.contains n))

/-- Lines 36-51 of `filter_recipes`: the meal-type stage, then the
calorie-range stage, then the rating-range stage, applied in the source's
order to an already dietary-filtered row list. -/
def applyMealAndRanges (c : Criteria) (rows : List Row) : List Row :=
  let r2 := if c.meal_type = "" ∨ c.meal_type = "Any" then rows
            else rows.filter (mealPred c.meal_type)
  let r3 := match c.calories_range with
            | none => r2
            | some (lo, hi) =>
                r2.filter (fun r => decide (lo ≤ r.calories) && decide (r.calories ≤ hi))
  match c.rating_range with
  | none => r3
  | some (lo, hi) =>
      r3.filter (fun r => decide (lo ≤ r.rating) && decide (r.rating ≤ hi))

/-- `filter_recipes(df, dietary_restrictions, meal_type, rating_range,
calories_range)` (lines 27-51).  An empty frame is returned unchanged
before anything else; a non-empty restriction list indexes the flag
columns, raising `KeyError` (embedded as `Except.error`) when any
requested name is not a column; the surviving rows then pass through the
meal-type and range stages. -/
def filter_recipes (t : Table) (c : Criteria) : Except FilterErr Table :=
  if t.rows.isEmpty then Except.ok t
  else if c.dietary_restrictions.isEmpty then
    Except.ok { t with rows := applyMealAndRanges c t.rows }
  else if missingCols t c = [] then
    let dietRows := t.rows.filter (fun r => c.dietary_restrictions.all (fun n => getFlag r n))
    Except.ok { t with rows := applyMealAndRanges c dietRows }
  else
    Except.error (FilterErr.unknownRestriction (missingCols t c))

/-- Conjunction of the four predicate classes on one row, associated the
way the sequential filters of `filter_recipes` compose. -/
def rowPasses (c : Criteria) (r : Row) : Bool :=
  ratStage c r && (calStage c r && (mealStage c r && dietaryAll c r))

/-- `filter_recipes` with the caller's binding of `df` threaded as state:
the body works on `df.copy()` (line 31) and rebinds only the local
`filtered_df`, so the second component — the caller's table after the
call — is returned untouched. -/
def filterRecipesState (df : Table) (c : Criteria) : Except FilterErr Table × Table :=
  if df.rows.isEmpty then (Except.ok df, df)
  else
    let filtered : Table := { df with rows := df.rows }
    if c.dietary_restrictions.isEmpty then
      (Except.ok { filtered with rows := applyMealAndRanges c filtered.rows }, df)
    else if missingCols df c = [] then
      let dietRows := filtered.rows.filter (fun r => c.dietary_restrictions.all (fun n => getFlag r n))
      (Except.ok { filtered with rows := applyMealAndRanges c dietRows }, df)
    else
      (Except.error (FilterErr.unknownRestriction (missingCols df c)), df)

/-- Index of the equal-width bin (out of 20 spanning `[lo, hi]`) that the
value `x` falls into; the top bin is closed at `hi`, which the clamp to 19
realises. -/
def binIdx (lo hi x : ℚ) : ℕ :=
  min 19 (Rat.floor ((x - lo) * 20 / (hi - lo))).toNat

/-- Modelled from the spec: the rating-histogram binning performed inside
the plotly library by `px.histogram(df, x='rating', nbins=20)` — the
binning code itself is not part of this repository.  Per the spec, the
values are partitioned into 20 equal-width bins spanning the observed
min..max of the input; when all values coincide the zero-width range
degenerates to a single bin holding every row. -/
def histogram20 (vals : List ℚ) : List ℕ :=
  match vals with
  | [] => []
  | x :: xs =>
    let lo := xs.foldl min x
    let hi := xs.foldl max x
    if hi = lo then [vals.length]
    else (List.range 20).map (fun i => vals.countP (fun q => binIdx lo hi q == i))

/-- The rating-distribution aggregation of `plot_rating_distribution`
(lines 70-87): the per-bin counts of the rows' ratings. -/
def plot_rating_distribution (rows : List Row) : List ℕ :=
  histogram20 (rows.map (fun r => r.rating))

/-- Round-half-to-even to an integer, the rounding mode of
`numpy.round`. -/
def roundHalfEven (q : ℚ) : ℤ :=
  let f := Rat.floor q
  let frac := q - (f : ℚ)
  if frac < 1/2 then f
  else if 1/2 < frac then f + 1
  else if f % 2 = 0 then f else f + 1

/-- One-decimal-place display rounding, `numpy.round(x, 1)`. -/
def round1 (q : ℚ) : ℚ :=
  (roundHalfEven (q * 10) : ℚ) / 10

/-- The average-nutrition aggregation of `plot_nutrition_comparison`
(lines 89-98): `df[['calories', 'protein', 'fat']].mean()` gives the bar
heights, and `.round(1)` of the same values gives the displayed text
labels.  The mean of an empty frame is NaN (undefined), embedded as
`none`. -/
def plot_nutrition_comparison (rows : List Row) : Option ((ℚ × ℚ × ℚ) × (ℚ × ℚ × ℚ)) :=
  if rows.isEmpty then none
  else
    let n : ℚ := (rows.length : ℚ)
    let avgCal := (rows.map (fun r => r.calories)).sum / n
    let avgProt := (rows.map (fun r => r.protein)).sum / n
    let avgFat := (rows.map (fun r => r.fat)).sum / n
    some ((avgCal, avgProt, avgFat), (round1 avgCal, round1 avgProt, round1 avgFat))

/-- The results branch of `main` (lines 253-304): the charts — in
particular the average-nutrition aggregation — are computed only under
`if not filtered_df.empty`; the empty case renders an error message and
invokes no aggregation. -/
def main_render (filtered : Table) : Option ((ℚ × ℚ × ℚ) × (ℚ × ℚ × ℚ)) :=
  if filtered.rows.isEmpty then none
  else plot_nutrition_comparison filtered.rows

/-! Concrete fixtures, taken from the spec's concrete scenarios (§8). -/

/-- The vegan breakfast row "A" of the spec's first concrete scenario. -/
def rowA : Row :=
  { title := "A", rating := 4, meal_type := some "Breakfast", calories := 300,
    protein := 10, fat := 5, flags := [("Vegan", true)] }

/-- The non-vegan dinner row "B" of the spec's first concrete scenario. -/
def rowB : Row :=
  { title := "B", rating := 2, meal_type := some "Dinner", calories := 700,
    protein := 20, fat := 30, flags := [("Vegan", false)] }

/-- A row whose meal-type value contains "Dinner" as a case-insensitive
substring. -/
def rowH : Row :=
  { title := "H", rating := 3, meal_type := some "Holiday DINNER Special", calories := 500,
    protein := 15, fat := 10, flags := [("Vegan", false)] }

/-- A two-row table holding the spec's scenario rows. -/
def tW : Table :=
  { columns := ["title", "rating", "meal_type", "calories", "protein", "fat", "Vegan"],
    rows := [rowA, rowB] }

/-- The spec's scenario criteria: vegan only, any meal, rating in [0, 5],
calories in [0, 1000]. -/
def cW : Criteria :=
  { dietary_restrictions := ["Vegan"], meal_type := "Any",
    rating_range := some (0, 5), calories_range := some (0, 1000) }

/-- The expected filtered table of the scenario: exactly row "A". -/
def tW' : Table := { tW with rows := [rowA] }

/-- Criteria requesting the restriction "Keto", which no table here has a
column for. -/
def cKeto : Criteria :=
  { dietary_restrictions := ["Keto"], meal_type := "Any",
    rating_range := some (0, 5), calories_range := some (0, 1000) }

/-- An empty frame (as `load_data` returns when the CSV is missing):
no columns, no rows. -/
def emptyT : Table := { columns := [], rows := [] }

/-! Helper lemmas about the filter engine. -/

/-- Filtering twice by the same predicate filters once. -/
theorem filter_idem {α : Type} (p : α → Bool) (l : List α) :
    (l.filter p).filter p = l.filter p :=
  List.filter_eq_self.mpr (fun _ ha => (List.mem_filter.mp ha).2)

/-- The chained meal-type and range stages equal one filtering pass by the
conjunction of the three stage predicates. -/
theorem applyMealAndRanges_eq (c : Criteria) (rows : List Row) :
    applyMealAndRanges c rows =
      rows.filter (fun r => ratStage c r && (calStage c r && mealStage c r)) := by
  unfold applyMealAndRanges
  rcases hrr : c.rating_range with _ | ⟨rlo, rhi⟩ <;>
    rcases hcc : c.calories_range with _ | ⟨clo, chi⟩ <;>
      by_cases hmt : c.meal_type = "" ∨ c.meal_type = "Any" <;>
        simp [ratStage, calStage, mealStage, hrr, hcc, hmt, List.filter_filter]

/-- A row passes the dietary stage iff every selected flag is truthy. -/
theorem dietaryAll_eq_true (c : Criteria) (r : Row) :
    dietaryAll c r = true ↔ ∀ n ∈ c.dietary_restrictions, getFlag r n = true := by
  simp [dietaryAll, List.all_eq_true]

/-- A name is reported missing iff it is requested and not a column. -/
theorem mem_missingCols (t : Table) (c : Criteria) (n : String) :
    n ∈ missingCols t c ↔ n ∈ c.dietary_restrictions ∧ n ∉ t.columns := by
  simp [missingCols, List.mem_filter]

/-- With no requested restriction, nothing can be missing. -/
theorem missingCols_of_empty (t : Table) (c : Criteria)
    (h : c.dietary_restrictions = []) : missingCols t c = [] := by
  simp [missingCols, h]

/-- On every input on which the engine does not raise, `filter_recipes`
returns the original columns and the rows surviving the conjunction of all
four predicate classes, in order. -/
theorem filter_recipes_ok_char (t : Table) (c : Criteria)
    (h : t.rows = [] ∨ missingCols t c = []) :
    filter_recipes t c = Except.ok ⟨t.columns, t.rows.filter (rowPasses c)⟩ := by
  obtain ⟨cols, rows⟩ := t
  unfold filter_recipes
  dsimp at h ⊢
  rcases h with h | h
  · subst h; simp
  · by_cases hrows : rows = []
    · subst hrows; simp
    · rw [if_neg (by simp [hrows])]
      by_cases hd : c.dietary_restrictions.isEmpty
      · rw [if_pos hd]
        have hdnil : c.dietary_restrictions = [] := by simpa using hd
        simp only [applyMealAndRanges_eq, Except.ok.injEq, Table.mk.injEq, true_and]
        refine List.filter_congr (fun r _ => ?_)
        simp [rowPasses, dietaryAll, hdnil]
      · rw [if_neg hd, if_pos h]
        simp only [applyMealAndRanges_eq, List.filter_filter, Except.ok.injEq,
          Table.mk.injEq, true_and]
        refine List.filter_congr (fun r _ => ?_)
        simp only [rowPasses, dietaryAll, Bool.and_assoc]

/-- On a non-empty table with a missing requested column, `filter_recipes`
raises the `KeyError` naming exactly the missing columns. -/
theorem filter_recipes_err_char (t : Table) (c : Criteria)
    (h1 : t.rows ≠ []) (h2 : missingCols t c ≠ []) :
    filter_recipes t c =
      Except.error (FilterErr.unknownRestriction (missingCols t c)) := by
  have hd : ¬ c.dietary_restrictions.isEmpty = true := by
    intro hd
    exact h2 (missingCols_of_empty t c (by simpa using hd))
  unfold filter_recipes
  rw [if_neg (by simpa using h1), if_neg hd, if_neg h2]

/-- Inversion: a successful run determines the output table, and can only
happen on an empty table or with every requested column present. -/
theorem filter_recipes_ok_inv (t : Table) (c : Criteria) (t' : Table)
    (h : filter_recipes t c = Except.ok t') :
    t' = ⟨t.columns, t.rows.filter (rowPasses c)⟩ ∧
      (t.rows = [] ∨ missingCols t c = []) := by
  by_cases h1 : t.rows = []
  · rw [filter_recipes_ok_char t c (Or.inl h1)] at h
    exact ⟨(Except.ok.injEq _ _).mp h |>.symm, Or.inl h1⟩
  · by_cases h2 : missingCols t c = []
    · rw [filter_recipes_ok_char t c (Or.inr h2)] at h
      exact ⟨(Except.ok.injEq _ _).mp h |>.symm, Or.inr h2⟩
    · rw [filter_recipes_err_char t c h1 h2] at h
      cases h

/-! Helper lemmas about the aggregation layer. -/

/-- Every bin index is one of the 20 bins. -/
theorem binIdx_lt20 (lo hi x : ℚ) : binIdx lo hi x < 20 :=
  lt_of_le_of_lt (Nat.min_le_left _ _) (by norm_num)

/-- Summing a function over `List.range` is summing over `Finset.range`. -/
theorem sum_range_map (n : ℕ) (g : ℕ → ℕ) :
    ((List.range n).map g).sum = ∑ i in Finset.range n, g i := by
  induction n with
  | zero => simp
  | succ k ih =>
      rw [List.range_succ, Finset.sum_range_succ, List.map_append, List.sum_append, ih]
      simp

/-- Counting the elements sent to each of `n` classes recovers the length,
provided every element lands in a class below `n`. -/
theorem countP_partition (l : List ℚ) (f : ℚ → ℕ) (n : ℕ)
    (h : ∀ a ∈ l, f a < n) :
    ((List.range n).map (fun i => l.countP (fun a => f a == i))).sum = l.length := by
  rw [sum_range_map]
  induction l with
  | nil => simp
  | cons a l ih =>
      have ha : f a < n := h a (by simp)
      have ih' := ih (fun x hx => h x (by simp [hx]))
      simp only [List.countP_cons, List.length_cons]
      rw [Finset.sum_add_distrib, ih']
      congr 1
      simp only [beq_iff_eq]
      rw [Finset.sum_ite_eq]
      simp [Finset.mem_range, ha]

/-- Folding `min` only moves the accumulator down. -/
theorem foldl_min_le_init (x : ℚ) (l : List ℚ) : l.foldl min x ≤ x := by
  induction l generalizing x with
  | nil => exact le_refl x
  | cons a t ih => exact le_trans (ih (min x a)) (min_le_left x a)

/-- The `min` fold is a lower bound of the list. -/
theorem foldl_min_le_mem (x y : ℚ) (l : List ℚ) (hy : y ∈ l) :
    l.foldl min x ≤ y := by
  induction l generalizing x with
  | nil => cases hy
  | cons a t ih =>
      rcases List.mem_cons.mp hy with rfl | hy'
      · exact le_trans (foldl_min_le_init (min x y) t) (min_le_right x y)
      · exact ih _ hy'

/-- Folding `max` only moves the accumulator up. -/
theorem le_foldl_max_init (x : ℚ) (l : List ℚ) : x ≤ l.foldl max x := by
  induction l generalizing x with
  | nil => exact le_refl x
  | cons a t ih => exact le_trans (le_max_left x a) (ih (max x a))

/-- The `max` fold is an upper bound of the list. -/
theorem le_foldl_max_mem (x y : ℚ) (l : List ℚ) (hy : y ∈ l) :
    y ≤ l.foldl max x := by
  induction l generalizing x with
  | nil => cases hy
  | cons a t ih =>
      rcases List.mem_cons.mp hy with rfl | hy'
      · exact le_trans (le_max_right x y) (le_foldl_max_init (max x y) t)
      · exact ih _ hy'

/-- Folding `min` over copies of the accumulator is the accumulator. -/
theorem foldl_min_all_eq (x : ℚ) (l : List ℚ) (h : ∀ y ∈ l, y = x) :
    l.foldl min x = x := by
  induction l with
  | nil => rfl
  | cons a t ih =>
      have ha : a = x := h a (by simp)
      simp only [List.foldl_cons, ha, min_self]
      exact ih (fun y hy => h y (by simp [hy]))

/-- Folding `max` over copies of the accumulator is the accumulator. -/
theorem foldl_max_all_eq (x : ℚ) (l : List ℚ) (h : ∀ y ∈ l, y = x) :
    l.foldl max x = x := by
  induction l with
  | nil => rfl
  | cons a t ih =>
      have ha : a = x := h a (by simp)
      simp only [List.foldl_cons, ha, max_self]
      exact ih (fun y hy => h y (by simp [hy]))

/-- The histogram's bin counts always add up to the number of values. -/
theorem histogram20_sum (vals : List ℚ) : (histogram20 vals).sum = vals.length := by
  cases vals with
  | nil => rfl
  | cons x xs =>
      show (if xs.foldl max x = xs.foldl min x then [(x :: xs).length]
            else (List.range 20).map (fun i =>
              (x :: xs).countP (fun q =>
                binIdx (xs.foldl min x) (xs.foldl max x) q == i))).sum
          = (x :: xs).length
      by_cases hdeg : xs.foldl max x = xs.foldl min x
      · rw [if_pos hdeg]; rfl
      · rw [if_neg hdeg]
        exact countP_partition (x :: xs) (fun q => binIdx (xs.foldl min x) (xs.foldl max x) q)
          20 (fun a _ => binIdx_lt20 _ _ a)

/-- When every value coincides, the degenerate zero-width range produces the
single bin holding all rows. -/
theorem histogram20_all_eq (x : ℚ) (xs : List ℚ) (h : ∀ y ∈ x :: xs, y = x) :
    histogram20 (x :: xs) = [(x :: xs).length] := by
  have hmin : xs.foldl min x = x := foldl_min_all_eq x xs (fun y hy => h y (by simp [hy]))
  have hmax : xs.foldl max x = x := foldl_max_all_eq x xs (fun y hy => h y (by simp [hy]))
  show (if xs.foldl max x = xs.foldl min x then [(x :: xs).length]
        else (List.range 20).map (fun i =>
          (x :: xs).countP (fun q =>
            binIdx (xs.foldl min x) (xs.foldl max x) q == i)))
      = [(x :: xs).length]
  rw [if_pos (by rw [hmin, hmax])]

/-- With two distinct values in the input, the range is non-degenerate and
the histogram has the full 20 bins. -/
theorem histogram20_len (x : ℚ) (xs : List ℚ) (h : ∃ y ∈ x :: xs, y ≠ x) :
    (histogram20 (x :: xs)).length = 20 := by
  obtain ⟨y, hy, hne⟩ := h
  have hy' : y ∈ xs := by
    rcases List.mem_cons.mp hy with rfl | h'
    · exact absurd rfl hne
    · exact h'
  have h1 : xs.foldl min x ≤ y := foldl_min_le_mem x y xs hy'
  have h2 : y ≤ xs.foldl max x := le_foldl_max_mem x y xs hy'
  have h3 : xs.foldl min x ≤ x := foldl_min_le_init x xs
  have h4 : x ≤ xs.foldl max x := le_foldl_max_init x xs
  have hneq : xs.foldl max x ≠ xs.foldl min x := by
    intro heq
    apply hne
    rw [heq] at h2 h4
    exact le_antisymm (le_trans h2 h3) (le_trans h4 h1)
  show (if xs.foldl max x = xs.foldl min x then [(x :: xs).length]
        else (List.range 20).map (fun i =>
          (x :: xs).countP (fun q =>
            binIdx (xs.foldl min x) (xs.foldl max x) q == i))).length
      = 20
  rw [if_neg hneq]
  simp

/-- Boolean list-prefix agrees with the existence of a tail. -/
theorem isPrefixOf_iff (n l : List Char) :
    n.isPrefixOf l = true ↔ ∃ t, l = n ++ t := by
  rw [ List.isPrefixOf_iff_prefix]
  constructor
  · rintro ⟨t, ht⟩; exact ⟨t, ht.symm⟩
  · rintro ⟨t, ht⟩; exact ⟨t, ht.symm⟩

/-- `hasSub` decides contiguous-substring containment. -/
theorem hasSub_iff (n l : List Char) :
    hasSub n l = true ↔ ∃ l1 l2, l = l1 ++ n ++ l2 := by
  induction l with
  | nil =>
      simp only [hasSub, List.isEmpty_iff]
      constructor
      · rintro rfl; exact ⟨[], [], rfl⟩
      · rintro ⟨l1, l2, hl⟩
        have hlen := congrArg List.length hl
        simp [List.length_append] at hlen
        exact List.length_eq_zero.mp (by omega)
  | cons c t ih =>
      simp only [hasSub, Bool.or_eq_true, ih, isPrefixOf_iff]
      constructor
      · rintro (⟨t2, ht2⟩ | ⟨l1, l2, hl⟩)
        · exact ⟨[], t2, by simpa using ht2⟩
        · exact ⟨c :: l1, l2, by simp [hl]⟩
      · rintro ⟨l1, l2, hl⟩
        rcases l1 with _ | ⟨a, l1⟩
        · left; exact ⟨l2, by simpa using hl⟩
        · right
          simp only [List.cons_append] at hl
          injection hl with h1 h2
          exact ⟨l1, l2, h2⟩

/-! The claims. -/

/-- C1 (counterexample): the claim quantifies over every table, but on an
empty table — whose column set omits the requested "Keto" restriction —
`filter_recipes` returns the table unchanged as a success, not an
`UnknownRestriction` failure: the empty-frame check of line 28 runs before
the restriction columns are ever indexed. -/
theorem unknownRestriction_empty_table_cx :
    ("Keto" ∈ cKeto.dietary_restrictions ∧ "Keto" ∉ emptyT.columns) ∧
    filter_recipes emptyT cKeto = Except.ok emptyT :=
  ⟨⟨by decide, by decide⟩, rfl⟩

/-- C1 (amended): for every table with at least one row and criteria whose
restriction set contains a name that is not a column, `filter_recipes`
yields the `UnknownRestriction` failure as an explicit result value,
identifying exactly the offending names, and produces no result rows. -/
theorem unknownRestriction_fails_closed (t : Table) (c : Criteria)
    (hrows : t.rows ≠ [])
    (h : ∃ n ∈ c.dietary_restrictions, n ∉ t.columns) :
    filter_recipes t c =
        Except.error (FilterErr.unknownRestriction (missingCols t c)) ∧
      missingCols t c ≠ [] ∧
      (∀ n, n ∈ missingCols t c ↔ n ∈ c.dietary_restrictions ∧ n ∉ t.columns) := by
  obtain ⟨n, hn, hcol⟩ := h
  have hmem : n ∈ missingCols t c := (mem_missingCols t c n).mpr ⟨hn, hcol⟩
  have hne : missingCols t c ≠ [] := fun he => by simp [he] at hmem
  exact ⟨filter_recipes_err_char t c hrows hne, hne, fun m => mem_missingCols t c m⟩

/-- C1 (witness): on the two-row table, requesting the absent "Keto"
column fails with `UnknownRestriction ["Keto"]`. -/
theorem unknownRestriction_fails_closed_wit :
    filter_recipes tW cKeto =
      Except.error (FilterErr.unknownRestriction ["Keto"]) :=
  (unknownRestriction_fails_closed tW cKeto (by decide)
    ⟨"Keto", by decide, by decide⟩).1

/-- C2: on every successful run, a row appears in the output iff it is a
row of the input satisfying all four predicate classes — every selected
dietary flag truthy, the meal-type stage, the calorie-range stage and the
rating-range stage. -/
theorem filter_conjunctive (t : Table) (c : Criteria) (t' : Table)
    (h : filter_recipes t c = Except.ok t') (r : Row) :
    r ∈ t'.rows ↔
      r ∈ t.rows ∧ (∀ n ∈ c.dietary_restrictions, getFlag r n = true) ∧
        mealStage c r = true ∧ calStage c r = true ∧ ratStage c r = true := by
  obtain ⟨ht', _⟩ := filter_recipes_ok_inv t c t' h
  subst ht'
  simp only [List.mem_filter, rowPasses, Bool.and_eq_true, dietaryAll_eq_true]
  tauto

/-- C2 (witness): the spec's concrete scenario — row "A" is in the output
of filtering the two-row table by the vegan criteria, and satisfies all
four predicate classes there. -/
theorem filter_conjunctive_wit :
    rowA ∈ tW'.rows ↔
      rowA ∈ tW.rows ∧ (∀ n ∈ cW.dietary_restrictions, getFlag rowA n = true) ∧
        mealStage cW rowA = true ∧ calStage cW rowA = true ∧ ratStage cW rowA = true :=
  filter_conjunctive tW cW tW' (by rfl) rowA

/-- C3: the meal-type stage always passes for the sentinel "Any" or an
absent/empty request; otherwise it passes exactly the rows whose
`meal_type` value contains the request as a case-insensitive substring,
and a row with a missing/null `meal_type` never passes. -/
theorem mealStage_spec (mt : String) (r : Row) :
    ((mt = "" ∨ mt = "Any") → mealStage ⟨[], mt, none, none⟩ r = true) ∧
    (¬(mt = "" ∨ mt = "Any") →
      (mealStage ⟨[], mt, none, none⟩ r = true ↔
        ∃ s l1 l2, r.meal_type = some s ∧ lowerChars s = l1 ++ lowerChars mt ++ l2)) ∧
    (¬(mt = "" ∨ mt = "Any") → r.meal_type = none →
      mealStage ⟨[], mt, none, none⟩ r = false) := by
  refine ⟨fun h => ?_, fun h => ?_, fun h hnone => ?_⟩
  · simp [mealStage, h]
  · rw [mealStage, if_neg h]
    unfold mealPred
    cases hm : r.meal_type with
    | none => simp [hm]
    | some s =>
        simp only [hm, Option.some.injEq, containsCI]
        rw [hasSub_iff]
        constructor
        · rintro ⟨l1, l2, hl⟩; exact ⟨s, l1, l2, rfl, hl⟩
        · rintro ⟨s', l1, l2, hs', hl⟩
          cases hs'
          exact ⟨l1, l2, hl⟩
  · rw [mealStage, if_neg h]
    simp [mealPred, hnone]

/-- C3 (witness): requesting "Dinner" matches the stored value
"Holiday DINNER Special" case-insensitively. -/
theorem mealStage_spec_wit :
    mealStage ⟨[], "Dinner", none, none⟩ rowH = true :=
  ((mealStage_spec "Dinner" rowH).2.1 (by decide)).mpr
    ⟨"Holiday DINNER Special", "holiday ".data, " special".data, rfl, by decide⟩

/-- C4: re-applying identical criteria to an already-filtered result
changes nothing. -/
theorem filter_idempotent (t : Table) (c : Criteria) (t' : Table)
    (h : filter_recipes t c = Except.ok t') :
    filter_recipes t' c = Except.ok t' := by
  obtain ⟨ht', hcase⟩ := filter_recipes_ok_inv t c t' h
  subst ht'
  have hcase' : (⟨t.columns, t.rows.filter (rowPasses c)⟩ : Table).rows = [] ∨
      missingCols ⟨t.columns, t.rows.filter (rowPasses c)⟩ c = [] := by
    rcases hcase with h1 | h2
    · left; simp [h1]
    · right; simpa [missingCols] using h2
  rw [filter_recipes_ok_char _ c hcase']
  simp [filter_idem]

/-- C4 (witness): filtering the already-filtered scenario table again by
the same criteria returns it unchanged. -/
theorem filter_idempotent_wit : filter_recipes tW' cW = Except.ok tW' :=
  filter_idempotent tW cW tW' (by rfl)

/-- C5: the output rows of every successful run are a subsequence of the
input rows — the filter is stable, preserving relative order. -/
theorem filter_order_preserving (t : Table) (c : Criteria) (t' : Table)
    (h : filter_recipes t c = Except.ok t') :
    t'.rows.Sublist t.rows := by
  obtain ⟨ht', _⟩ := filter_recipes_ok_inv t c t' h
  subst ht'
  exact List.filter_sublist _

/-- C5 (witness): the scenario output `[rowA]` is a subsequence of the
input `[rowA, rowB]`. -/
theorem filter_order_preserving_wit : tW'.rows.Sublist tW.rows :=
  filter_order_preserving tW cW tW' (by rfl)

/-- C6: both range predicates are inclusive at both ends — a row whose
rating (resp. calories) equals the requested minimum or maximum bound
passes the rating-range (resp. calorie-range) stage. -/
theorem range_bounds_inclusive (r : Row) (lo hi : ℚ) (h : lo ≤ hi) :
    ((r.rating = lo ∨ r.rating = hi) →
      ratStage ⟨[], "Any", some (lo, hi), some (lo, hi)⟩ r = true) ∧
    ((r.calories = lo ∨ r.calories = hi) →
      calStage ⟨[], "Any", some (lo, hi), some (lo, hi)⟩ r = true) := by
  constructor
  · intro hr
    simp only [ratStage, Bool.and_eq_true, decide_eq_true_eq]
    rcases hr with hr | hr <;> rw [hr]
    · exact ⟨le_refl lo, h⟩
    · exact ⟨h, le_refl hi⟩
  · intro hr
    simp only [calStage, Bool.and_eq_true, decide_eq_true_eq]
    rcases hr with hr | hr <;> rw [hr]
    · exact ⟨le_refl lo, h⟩
    · exact ⟨h, le_refl hi⟩

/-- C6 (witness): row "A" with rating 4 and calories 300 passes the
rating range [4, 300] at its lower bound and the calorie range [4, 300]
at its upper bound. -/
theorem range_bounds_inclusive_wit :
    ratStage ⟨[], "Any", some (4, 300), some (4, 300)⟩ rowA = true ∧
    calStage ⟨[], "Any", some (4, 300), some (4, 300)⟩ rowA = true :=
  ⟨(range_bounds_inclusive rowA 4 300 (by decide)).1 (Or.inl rfl),
   (range_bounds_inclusive rowA 4 300 (by decide)).2 (Or.inr rfl)⟩

/-- C7: the bin counts of the rating distribution always sum to the row
count of the input; on a non-empty input the histogram has the full 20
equal-width bins when two ratings differ, and degenerates without failing
to a single bin holding every row when all ratings coincide. -/
theorem rating_distribution_conserves (rows : List Row) :
    (plot_rating_distribution rows).sum = rows.length ∧
    (∀ r0 rest, rows = r0 :: rest →
      ((∀ s ∈ rows, s.rating = r0.rating) →
        plot_rating_distribution rows = [rows.length]) ∧
      ((∃ s ∈ rows, s.rating ≠ r0.rating) →
        (plot_rating_distribution rows).length = 20)) := by
  constructor
  · unfold plot_rating_distribution
    rw [histogram20_sum, List.length_map]
  · rintro r0 rest rfl
    constructor
    · intro hall
      unfold plot_rating_distribution
      rw [show (r0 :: rest).map (fun r => r.rating)
            = r0.rating :: rest.map (fun r => r.rating) from rfl]
      rw [histogram20_all_eq]
      · simp
      · intro y hy
        rcases List.mem_cons.mp hy with rfl | hy'
        · rfl
        · obtain ⟨s, hs, rfl⟩ := List.mem_map.mp hy'
          exact hall s (by simp [hs])
    · rintro ⟨s, hs, hne⟩
      unfold plot_rating_distribution
      rw [show (r0 :: rest).map (fun r => r.rating)
            = r0.rating :: rest.map (fun r => r.rating) from rfl]
      apply histogram20_len
      refine ⟨s.rating, ?_, hne⟩
      rcases List.mem_cons.mp hs with rfl | hs'
      · exact absurd rfl hne
      · exact List.mem_cons_of_mem _ (List.mem_map.mpr ⟨s, hs', rfl⟩)

/-- C7 (witness): one row gives the degenerate single bin `[1]`; two rows
with distinct ratings give all 20 bins. -/
theorem rating_distribution_conserves_wit :
    plot_rating_distribution [rowA] = [1] ∧
    (plot_rating_distribution [rowA, rowB]).length = 20 :=
  ⟨((rating_distribution_conserves [rowA]).2 rowA [] rfl).1 (by decide),
   ((rating_distribution_conserves [rowA, rowB]).2 rowA [rowB] rfl).2
     ⟨rowB, by decide, by decide⟩⟩

/-- C8: on a non-empty table the average-nutrition aggregation returns the
arithmetic means of the calories, protein and fat columns — the bar values
times the row count give back the column sums — with the displayed labels
rounded to one decimal place; on the empty input it is undefined (`none`),
and the caller (`main`) never invokes it on an empty filtered result. -/
theorem avg_nutrition_mean (t : Table) (hne : t.rows ≠ []) :
    (∃ m : ℚ × ℚ × ℚ,
        plot_nutrition_comparison t.rows =
          some (m, (round1 m.1, round1 m.2.1, round1 m.2.2)) ∧
        m.1 * t.rows.length = (t.rows.map (fun r => r.calories)).sum ∧
        m.2.1 * t.rows.length = (t.rows.map (fun r => r.protein)).sum ∧
        m.2.2 * t.rows.length = (t.rows.map (fun r => r.fat)).sum) ∧
    plot_nutrition_comparison [] = none ∧
    (∀ t2 : Table, t2.rows = [] → main_render t2 = none) ∧
    main_render t = plot_nutrition_comparison t.rows := by
  have hlen : ((t.rows.length : ℚ)) ≠ 0 :=
    Nat.cast_ne_zero.mpr (fun h0 => hne (List.length_eq_zero.mp h0))
  refine ⟨⟨((t.rows.map (fun r => r.calories)).sum / t.rows.length,
            (t.rows.map (fun r => r.protein)).sum / t.rows.length,
            (t.rows.map (fun r => r.fat)).sum / t.rows.length),
          ?_, ?_, ?_, ?_⟩, rfl, ?_, ?_⟩
  · unfold plot_nutrition_comparison
    rw [if_neg (by simp [hne])]
  · exact div_mul_cancel₀ _ hlen
  · exact div_mul_cancel₀ _ hlen
  · exact div_mul_cancel₀ _ hlen
  · intro t2 h2
    unfold main_render
    rw [if_pos (by simp [h2])]
  · unfold main_render
    rw [if_neg (by simp [hne])]

/-- C8 (witness): the empty input is undefined, and on the non-empty
scenario table `main` computes the aggregation of the filtered rows. -/
theorem avg_nutrition_mean_wit :
    plot_nutrition_comparison ([] : List Row) = none ∧
    main_render tW = plot_nutrition_comparison tW.rows :=
  ⟨(avg_nutrition_mean tW (by decide)).2.1,
   (avg_nutrition_mean tW (by decide)).2.2.2⟩

/-- C9: `filter_recipes` is side-effect free — threading the caller's
table through the call as state returns it unchanged, and the result is
the pure function of the table and the criteria. -/
theorem filter_recipes_pure (t : Table) (c : Criteria) :
    filterRecipesState t c = (filter_recipes t c, t) := by
  unfold filterRecipesState filter_recipes
  by_cases h1 : t.rows.isEmpty <;> by_cases h2 : c.dietary_restrictions.isEmpty <;>
    by_cases h3 : missingCols t c = [] <;> simp [h1, h2, h3]

/-- C10: filtering an empty table returns it unchanged without error for
every criteria — even one naming restrictions with no corresponding
column — because the empty-frame check precedes restriction-name
validation. -/
theorem filter_empty_table (t : Table) (c : Criteria) (h : t.rows = []) :
    filter_recipes t c = Except.ok t := by
  unfold filter_recipes
  rw [if_pos (by simp [h])]

/-- C10 (witness): the unknown "Keto" restriction on the empty frame
yields the empty frame, not an error. -/
theorem filter_empty_table_wit : filter_recipes emptyT cKeto = Except.ok emptyT :=
  filter_empty_table emptyT cKeto rfl

end NutriMeal
